import Mathlib

/-!
Shallow embedding of the Forecasting Studio core
(`app/strategies.py` and `app/utils.py`).

Prices are exact rationals; timestamps are naturals.  Pandas/NumPy list
operations (`pct_change`, `cumprod`, `cummax`, `shift`, rolling means,
`std` with `ddof = 1`, `np.median`) are modelled as structurally
recursive list functions.  Float NaN handling is represented by the
explicit guards the code itself tests (`fillna(0)`, the
`vol == 0 or isnan(vol)` branch); the Sharpe ratio lives in `ℝ` because
of `sqrt(252)`.
-/

namespace ForecastingStudio

/-- One row of the price series: (timestamp, close). -/
abbrev Row := ℕ × ℚ

/-- A price series (pandas DataFrame with `timestamp`, `close`). -/
abbrev DF := List Row

/-- A concrete parameter assignment (a Python dict, as an assoc list). -/
abbrev Params := List (String × ℤ)

/-- A parameter grid: name ↦ candidate values. -/
abbrev ParamSpace := List (String × List ℤ)

/-! ### Generic list helpers mirroring pandas/NumPy primitives -/

/-- `Series.shift(1).fillna(0)` for integer signals. -/
def shift1 (l : List ℤ) : List ℤ :=
  match l with
  | [] => []
  | _ :: _ => 0 :: l.dropLast

/-- Tail of `pct_change`: successive ratios against the running previous value. -/
def pctAux (prev : ℚ) : List ℚ → List ℚ
  | [] => []
  | y :: ys => (y / prev - 1) :: pctAux y ys

/-- `Series.pct_change().fillna(0)`: first entry 0, then `l[t]/l[t-1] - 1`. -/
def pctChange : List ℚ → List ℚ
  | [] => []
  | x :: xs => 0 :: pctAux x xs

/-- Tail of `cumprod` with running accumulator. -/
def cumAux (acc : ℚ) : List ℚ → List ℚ
  | [] => []
  | y :: ys => (acc * y) :: cumAux (acc * y) ys

/-- `Series.cumprod()`. -/
def cumprod (l : List ℚ) : List ℚ := cumAux 1 l

/-- Tail of `cummax` with running accumulator. -/
def cummaxAux (m : ℚ) : List ℚ → List ℚ
  | [] => []
  | y :: ys => (max m y) :: cummaxAux (max m y) ys

/-- `Series.cummax()`. -/
def cummax : List ℚ → List ℚ
  | [] => []
  | x :: xs => x :: cummaxAux x xs

/-- Insert into a sorted list, before the first element it is `le` to
(stable when driven by `sortBy`). -/
def insertSorted (le : α → α → Bool) (x : α) : List α → List α
  | [] => [x]
  | y :: ys => if le x y then x :: y :: ys else y :: insertSorted le x ys

/-- Stable insertion sort, modelling Python `sorted` / pandas `sort_values`. -/
def sortBy (le : α → α → Bool) (l : List α) : List α :=
  l.foldr (insertSorted le) []

/-- Arithmetic mean of a list (0 for the empty list, as `0/0 = 0` in `ℚ`). -/
def listMean (l : List ℚ) : ℚ := l.sum / l.length

/-- Sample variance with `ddof = 1` (pandas `Series.std` squared).
For lists of length < 2 the `ℚ` division by zero yields 0; the caller
tests that degenerate case separately, mirroring the NaN test. -/
def sampleVar (l : List ℚ) : ℚ :=
  (l.map (fun x => (x - listMean l) ^ 2)).sum / (l.length - 1)

/-! ### `app/strategies.py` -/

/-- `SmaCross.__init__` state after validation. -/
structure SmaCross where
  fast : ℤ
  slow : ℤ
deriving Repr, DecidableEq

/-- `create_strategy`: registry lookup plus `SmaCross` construction with
defaults `fast=10, slow=30` and the `>= 1` validation. -/
def create_strategy (name : String) (params : Params) : Except String SmaCross :=
  if name = "sma_cross" then
    let fast := (params.lookup "fast").getD 10
    let slow := (params.lookup "slow").getD 30
    if fast < 1 ∨ slow < 1 then .error "fast and slow must be >= 1"
    else .ok ⟨fast, slow⟩
  else .error ("Unknown strategy: " ++ name)

/-- `rolling(window=w, min_periods=1)` window at index `t`: the last
`min (w, t+1)` observations. -/
def rollingWindow (w : ℕ) (l : List ℚ) (t : ℕ) : List ℚ :=
  (l.take (t + 1)).drop (t + 1 - w)

/-- `rolling(window=w, min_periods=1).mean()` at index `t`. -/
def rollingMean (w : ℕ) (l : List ℚ) (t : ℕ) : ℚ :=
  listMean (rollingWindow w l t)

/-- Signal value at index `t`: 0 default, 1 where fast mean > slow mean,
-1 where fast mean < slow mean. -/
def smaSignalAt (s : SmaCross) (closes : List ℚ) (t : ℕ) : ℤ :=
  let fm := rollingMean s.fast.toNat closes t
  let sm := rollingMean s.slow.toNat closes t
  if fm > sm then 1 else if fm < sm then -1 else 0

/-- Row-by-row production of the `[['timestamp','signal']]` frame,
`t` being the positional index of the head row. -/
def signalsAux (s : SmaCross) (closes : List ℚ) : ℕ → DF → List (ℕ × ℤ)
  | _, [] => []
  | t, r :: rest => (r.1, smaSignalAt s closes t) :: signalsAux s closes (t + 1) rest

/-- `SmaCross.generate_signals`. -/
def SmaCross.generate_signals (s : SmaCross) (df : DF) : List (ℕ × ℤ) :=
  signalsAux s (df.map Prod.snd) 0 df

/-! ### `app/utils.py`: metrics and backtest -/

/-- The pydantic `BacktestReport`. -/
structure BacktestReport where
  total_return : ℚ
  sharpe : ℝ
  max_drawdown : ℚ
  win_rate : ℚ
  trades : ℕ

/-- `compute_metrics(equity_curve, trade_returns)`.  The
`vol == 0 or np.isnan(vol)` test is the guard of the `sharpe` branch:
`std` is NaN exactly when fewer than 2 points exist (`ddof = 1`). -/
noncomputable def compute_metrics (equity_curve trade_returns : List ℚ) : BacktestReport :=
  let ret := pctChange equity_curve
  let sharpe : ℝ :=
    if ret.length < 2 ∨ sampleVar ret = 0 then 0
    else ((listMean ret : ℝ) / Real.sqrt (sampleVar ret)) * Real.sqrt 252
  let cum := equity_curve.map (fun x => x / equity_curve.headD 1)
  let dd := (List.zipWith (fun c m => c / m - 1) cum (cummax cum)).foldr min 0
  let wins := (trade_returns.filter (fun x => 0 < x)).length
  let trades := trade_returns.length
  let win_rate : ℚ := if 0 < trades then (wins : ℚ) / trades else 0
  let total_return := cum.getLastD 1 - 1
  ⟨total_return, sharpe, dd, win_rate, trades⟩

/-- `df.merge(sig, on='timestamp', how='left')` followed by
`fillna(0).astype(int)`: per price row, the first signal with a matching
timestamp, else 0.  (The series contract assumes unique timestamps.) -/
def mergeSignals (df : DF) (sig : List (ℕ × ℤ)) : List ℤ :=
  df.map (fun row => (((sig.find? (fun p => p.1 = row.1)).map Prod.snd).getD 0))

/-- `d['position'].diff().abs().fillna(0)`. -/
def diffAbs0 (l : List ℤ) : List ℤ :=
  match l with
  | [] => []
  | x :: xs => 0 :: List.zipWith (fun a b => |b - a|) (x :: xs) xs

/-- The result of `run_backtest`. -/
structure BacktestResult where
  report : BacktestReport
  equity : List ℚ
  timestamps : List ℕ

/-- `run_backtest(df, strategy_name, params)`. -/
noncomputable def run_backtest (df : DF) (strategy_name : String) (params : Params) :
    Except String BacktestResult := do
  let strat ← create_strategy strategy_name params
  let sig := strat.generate_signals df
  let signal := mergeSignals df sig
  let position := shift1 signal
  let ret := pctChange (df.map Prod.snd)
  let strategy_ret := List.zipWith (fun (p : ℤ) (r : ℚ) => (p : ℚ) * r) position ret
  let equity := cumprod (strategy_ret.map (fun x => 1 + x))
  let pos_change := diffAbs0 position
  let trade_returns :=
    (List.zipWith (fun (c : ℤ) (r : ℚ) => (c, r)) pos_change strategy_ret).filterMap
      (fun p => if 0 < p.1 then some p.2 else none)
  let report := compute_metrics equity trade_returns
  .ok ⟨report, equity, df.map Prod.fst⟩

/-! ### `app/utils.py`: walk-forward grid search -/

/-- `itertools.product`, leftmost factor varying slowest. -/
def cartesianProduct : List (List ℤ) → List (List ℤ)
  | [] => [[]]
  | vs :: rest => vs.flatMap (fun v => (cartesianProduct rest).map (fun tail => v :: tail))

/-- Comparison driving Python `sorted` on strings. -/
def strLe (a b : String) : Bool := a ≤ b

/-- `_grid(param_space)`: cartesian product over the sorted keys. -/
def _grid (param_space : ParamSpace) : List Params :=
  let keys := sortBy strLe (param_space.map Prod.fst)
  let values := keys.map (fun k => (param_space.lookup k).getD [])
  (cartesianProduct values).map (fun vals => keys.zip vals)

/-- The in-sample evaluation performed inline by `run_walkforward`
(lines 110–118): build the strategy, align signals, lag to positions,
compound to equity, and return the Sharpe of `compute_metrics(equity,
d['strategy_ret'])`. -/
noncomputable def inlineSharpe (is_df : DF) (strategy_name : String) (params : Params) :
    Except String ℝ := do
  let strat ← create_strategy strategy_name params
  let sig := strat.generate_signals is_df
  let signal := mergeSignals is_df sig
  let position := shift1 signal
  let ret := pctChange (is_df.map Prod.snd)
  let strategy_ret := List.zipWith (fun (p : ℤ) (r : ℚ) => (p : ℚ) * r) position ret
  let equity := cumprod (strategy_ret.map (fun x => 1 + x))
  let m := compute_metrics equity strategy_ret
  .ok m.sharpe

open Classical in
/-- The grid loop of `run_walkforward`: update `(best_sharpe, best_params)`
exactly when the candidate's Sharpe is strictly greater. -/
noncomputable def gridSearch (is_df : DF) (strategy_name : String) :
    List Params → ℝ → Option Params → Except String (ℝ × Option Params)
  | [], best_sharpe, best_params => .ok (best_sharpe, best_params)
  | params :: rest, best_sharpe, best_params => do
    let s ← inlineSharpe is_df strategy_name params
    if s > best_sharpe then gridSearch is_df strategy_name rest s (some params)
    else gridSearch is_df strategy_name rest best_sharpe best_params

/-- The out-of-sample re-run (lines 123–131), with `best_params or {}`:
returns the out-of-sample strategy returns and timestamps. -/
noncomputable def oosEval (oos_df : DF) (strategy_name : String)
    (best_params : Option Params) : Except String (List ℚ × List ℕ) := do
  let strat ← create_strategy strategy_name (best_params.getD [])
  let sig := strat.generate_signals oos_df
  let signal := mergeSignals oos_df sig
  let position := shift1 signal
  let ret := pctChange (oos_df.map Prod.snd)
  let strategy_ret := List.zipWith (fun (p : ℤ) (r : ℚ) => (p : ℚ) * r) position ret
  .ok (strategy_ret, oos_df.map Prod.fst)

/-- One `WalkForwardSegment` row. -/
structure Segment where
  is_range : ℕ × ℕ
  oos_range : ℕ × ℕ
  best_params : Option Params
  best_is_sharpe : ℝ

/-- The `oos` field of a walk-forward result. -/
structure OosResult where
  report : BacktestReport
  timestamps : List ℕ

/-- The result of `run_walkforward`. -/
structure WalkForwardResult where
  segments : List Segment
  oos : Option OosResult
  overfit_risk : Option ℝ

/-- First timestamp of a window (`is_df['timestamp'].iloc[0]`). -/
def tsFirst (df : DF) : ℕ := (df.map Prod.fst).headD 0

/-- Last timestamp of a window (`is_df['timestamp'].iloc[-1]`). -/
def tsLast (df : DF) : ℕ := (df.map Prod.fst).getLastD 0

/-- The `while True` loop of `run_walkforward`, recursing on fuel.
Each iteration extracts `df[i : i+ins]` and `df[i+ins : i+ins+outs]`,
breaks when the out-of-sample window would pass the end, and advances
the cursor by `outsample_days`; the fuel is an upper bound on the number
of iterations (the Python loop terminates whenever `outsample_days ≥ 1`). -/
noncomputable def walkLoop (df : DF) (strategy_name : String) (grid : List Params)
    (insample_days outsample_days : ℕ) :
    ℕ → ℕ → Except String (List Segment × List ℚ × List ℕ)
  | 0, _ => .ok ([], [], [])
  | fuel + 1, i =>
    if df.length < i + insample_days + outsample_days then .ok ([], [], [])
    else do
      let is_df := (df.drop i).take insample_days
      let oos_df := (df.drop (i + insample_days)).take outsample_days
      let (best_sharpe, best_params) ←
        gridSearch is_df strategy_name grid (-(1000000000 : ℝ)) none
      let (oos_ret, oos_ts) ← oosEval oos_df strategy_name best_params
      let seg : Segment :=
        ⟨(tsFirst is_df, tsLast is_df), (tsFirst oos_df, tsLast oos_df),
         best_params, best_sharpe⟩
      let (segs, rets, tss) ←
        walkLoop df strategy_name grid insample_days outsample_days fuel
          (i + outsample_days)
      .ok (seg :: segs, oos_ret ++ rets, oos_ts ++ tss)

open Classical in
/-- Comparison driving `np.median`'s sort on reals. -/
noncomputable def realLe (a b : ℝ) : Bool := decide (a ≤ b)

/-- `np.median`: middle of the sorted list, or the mean of the two
middle elements for even length. -/
noncomputable def npMedian (l : List ℝ) : ℝ :=
  let s := sortBy realLe l
  if l.length % 2 = 1 then s.getD (l.length / 2) 0
  else (s.getD (l.length / 2 - 1) 0 + s.getD (l.length / 2) 0) / 2

/-- Comparison driving `df.sort_values('timestamp')`. -/
def rowLe (a b : Row) : Bool := a.1 ≤ b.1

open Classical in
/-- `run_walkforward(df, strategy_name, param_space, insample_days,
outsample_days)`. -/
noncomputable def run_walkforward (df0 : DF) (strategy_name : String)
    (param_space : ParamSpace) (insample_days outsample_days : ℕ) :
    Except String WalkForwardResult := do
  let df := sortBy rowLe df0
  let (results, oos_returns, oos_timestamps) ←
    walkLoop df strategy_name (_grid param_space) insample_days outsample_days
      (df.length + 1) 0
  if oos_returns.length = 0 then
    .ok ⟨results, none, none⟩
  else
    let oos_eq := cumprod (oos_returns.map (fun x => 1 + x))
    let oos_report := compute_metrics oos_eq oos_returns
    let is_sharpes := results.map (fun seg => seg.best_is_sharpe)
    let median_is := if is_sharpes = [] then 0 else npMedian is_sharpes
    let oos_sharpe := oos_report.sharpe
    let overfit_risk := max 0 (1 - oos_sharpe / (|median_is| + 1 / 1000000000))
    .ok ⟨results, some ⟨oos_report, oos_timestamps⟩, some overfit_risk⟩

/-- Number of walk-forward windows a series of length `n` admits. -/
def numWindows (n insample_days outsample_days : ℕ) : ℕ :=
  if n < insample_days + outsample_days then 0
  else (n - insample_days - outsample_days) / outsample_days + 1

/-- Timestamp at positional index `i` of a series. -/
def tsAt (df : DF) (i : ℕ) : ℕ := (df.map Prod.fst).getD i 0

/-- The series contract: rows sorted ascending by timestamp. -/
def dfSorted (df : DF) : Prop := df.Pairwise (fun a b => a.1 ≤ b.1)

/-- Number of timestamps in the `oos` field of a result. -/
def oosLen (o : OosResult) : ℕ := o.timestamps.length

/-- Number of accumulated out-of-sample periods of a walk-forward
result (0 when `oos` is `None`). -/
def oosPeriodCount (r : WalkForwardResult) : ℕ := (r.oos.map oosLen).getD 0

/-! ### Basic structural lemmas -/

lemma pctAux_length (p : ℚ) (l : List ℚ) : (pctAux p l).length = l.length := by
  induction l generalizing p with
  | nil => rfl
  | cons y ys ih => simp [pctAux, ih]

lemma pctChange_length (l : List ℚ) : (pctChange l).length = l.length := by
  cases l with
  | nil => rfl
  | cons x xs => simp [pctChange, pctAux_length]

lemma cumAux_length (a : ℚ) (l : List ℚ) : (cumAux a l).length = l.length := by
  induction l generalizing a with
  | nil => rfl
  | cons y ys ih => simp [cumAux, ih]

lemma cumprod_length (l : List ℚ) : (cumprod l).length = l.length := by
  simp [cumprod, cumAux_length]

lemma shift1_length (l : List ℤ) : (shift1 l).length = l.length := by
  cases l with
  | nil => rfl
  | cons x xs => simp [shift1]

lemma mergeSignals_length (df : DF) (sig : List (ℕ × ℤ)) :
    (mergeSignals df sig).length = df.length := by
  simp [mergeSignals]

lemma insertSorted_length (le : α → α → Bool) (x : α) (l : List α) :
    (insertSorted le x l).length = l.length + 1 := by
  induction l with
  | nil => rfl
  | cons y ys ih =>
    by_cases h : le x y = true
    · simp [insertSorted, h]
    · simp [insertSorted, h, ih]

lemma sortBy_length (le : α → α → Bool) (l : List α) :
    (sortBy le l).length = l.length := by
  induction l with
  | nil => rfl
  | cons x xs ih => simp [sortBy, List.foldr] at ih ⊢; rw [insertSorted_length, ih]

@[simp] lemma ok_bind (a : α) (f : α → Except String β) :
    (Except.ok a >>= f) = f a := rfl

@[simp] lemma error_bind (m : String) (f : α → Except String β) :
    ((Except.error m : Except String α) >>= f) = Except.error m := rfl

/-- Sorting an already-sorted list is the identity. -/
lemma sortBy_eq_self (le : α → α → Bool) (l : List α)
    (h : l.Pairwise (fun a b => le a b = true)) : sortBy le l = l := by
  induction l with
  | nil => rfl
  | cons x xs ih =>
    rcases List.pairwise_cons.mp h with ⟨hx, hxs⟩
    have htail : sortBy le xs = xs := ih hxs
    show insertSorted le x (sortBy le xs) = x :: xs
    rw [htail]
    cases xs with
    | nil => rfl
    | cons y ys => simp [insertSorted, hx y (by simp)]

/-- C8: a series shorter than one full in-sample + out-of-sample window
yields `{segments: [], oos: None, overfit_risk: None}`, with no partial
segment and no error, for any strategy name and any parameter space. -/
theorem run_walkforward_short (df : DF) (strategy_name : String)
    (param_space : ParamSpace) (insample_days outsample_days : ℕ)
    (hshort : df.length < insample_days + outsample_days) :
    run_walkforward df strategy_name param_space insample_days outsample_days =
      .ok ⟨[], none, none⟩ := by
  have hlen : (sortBy rowLe df).length < 0 + insample_days + outsample_days := by
    rw [sortBy_length]; omega
  rw [run_walkforward, walkLoop, if_pos hlen]
  rfl

/-- Witness for C8 at a concrete input: a 1-row series with
`insample_days = 3`, `outsample_days = 1`. -/
theorem run_walkforward_short_witness :
    ([((0 : ℕ), (1 : ℚ))] : DF).length < 3 + 1 ∧
      run_walkforward [((0 : ℕ), (1 : ℚ))] "sma_cross" [] 3 1 = .ok ⟨[], none, none⟩ :=
  ⟨by decide, run_walkforward_short [((0 : ℕ), (1 : ℚ))] "sma_cross" [] 3 1 (by decide)⟩

/-- C5: for any price series and any signal series (hence regardless of
the strategy that produced it), the derived position
(`d['signal'].shift(1).fillna(0)` after the left join `mergeSignals`) is
0 at the first period, equals the aligned signal of the previous period
at every later period, and any price timestamp with no matching signal
contributes signal 0. -/
theorem position_lag_invariant (df : DF) (sig : List (ℕ × ℤ)) :
    (shift1 (mergeSignals df sig)).headD 0 = 0
    ∧ (∀ t, 1 ≤ t → t < df.length →
        (shift1 (mergeSignals df sig)).getD t 0 = (mergeSignals df sig).getD (t - 1) 0)
    ∧ (∀ t, t < df.length → (∀ p ∈ sig, p.1 ≠ (df.getD t ((0 : ℕ), (0 : ℚ))).1) →
        (mergeSignals df sig).getD t 0 = 0) := by
  refine ⟨?_, ?_, ?_⟩
  · cases df with
    | nil => rfl
    | cons r rest => rfl
  · intro t h1 ht
    have hlen := mergeSignals_length df sig
    obtain ⟨t', rfl⟩ : ∃ t', t = t' + 1 := ⟨t - 1, by omega⟩
    cases hms : mergeSignals df sig with
    | nil => exfalso; rw [hms] at hlen; simp at hlen; omega
    | cons a l =>
      have hl : t' < (a :: l).dropLast.length := by
        rw [hms] at hlen; simp at hlen ⊢; omega
      have hl' : t' < (a :: l).length := by simp at hl ⊢; omega
      show (0 :: (a :: l).dropLast).getD (t' + 1) 0 = (a :: l).getD (t' + 1 - 1) 0
      rw [List.getD_cons_succ, Nat.add_sub_cancel, List.getD_eq_getElem _ _ hl,
        List.getD_eq_getElem _ _ hl', List.getElem_dropLast]
  · intro t ht hnone
    have hfind : sig.find? (fun p => p.1 = (df.getD t ((0 : ℕ), (0 : ℚ))).1) = none := by
      apply List.find?_eq_none.mpr
      intro p hp
      simpa using hnone p hp
    have hm : t < (mergeSignals df sig).length := by rw [mergeSignals_length]; exact ht
    rw [List.getD_eq_getElem _ _ hm]
    simp only [mergeSignals, List.getElem_map]
    rw [List.getD_eq_getElem _ _ ht] at hfind
    rw [hfind]
    rfl

/-- Witness for C5: a 2-row series where the second timestamp has no
matching signal; the position list is `[0, 1]`. -/
theorem position_lag_invariant_witness :
    (shift1 (mergeSignals [((0 : ℕ), (5 : ℚ)), (1, 6)] [(0, 1)])).headD 0 = 0
    ∧ (shift1 (mergeSignals [((0 : ℕ), (5 : ℚ)), (1, 6)] [(0, 1)])).getD 1 0 =
        (mergeSignals [((0 : ℕ), (5 : ℚ)), (1, 6)] [(0, 1)]).getD 0 0
    ∧ (mergeSignals [((0 : ℕ), (5 : ℚ)), (1, 6)] [(0, 1)]).getD 1 0 = 0 := by
  obtain ⟨h1, h2, h3⟩ := position_lag_invariant [((0 : ℕ), (5 : ℚ)), (1, 6)] [(0, 1)]
  exact ⟨h1, h2 1 (by decide) (by decide), h3 1 (by decide) (by decide)⟩

/-! ### C4: the Sharpe field of `compute_metrics` -/

/-- The spec's per-period returns: `r[t] = equity[t]/equity[t-1] - 1`
for `t ≥ 1`, else 0 at `t = 0` (spec §4.3). -/
def specReturns (e : List ℚ) : List ℚ :=
  (List.range e.length).map
    (fun t => if t = 0 then 0 else e.getD t 0 / e.getD (t - 1) 0 - 1)

lemma pctAux_eq_spec (p : ℚ) (l : List ℚ) :
    pctAux p l =
      (List.range l.length).map
        (fun t => l.getD t 0 / ((p :: l).getD t 0) - 1) := by
  induction l generalizing p with
  | nil => rfl
  | cons y ys ih =>
    show (y / p - 1) :: pctAux y ys = _
    rw [List.length_cons, List.range_succ_eq_map, List.map_cons, List.map_map]
    simp only [List.getD_cons_zero, Function.comp]
    rw [ih y]
    rfl

/-- The implementation's `pct_change().fillna(0)` computes exactly the
spec's per-period return sequence. -/
lemma pctChange_eq_specReturns (e : List ℚ) : pctChange e = specReturns e := by
  cases e with
  | nil => rfl
  | cons x xs =>
    show 0 :: pctAux x xs = _
    rw [specReturns, List.length_cons, List.range_succ_eq_map, List.map_cons,
      List.map_map, pctAux_eq_spec]
    refine congrArg₂ List.cons (by simp) ?_
    apply List.map_congr_left
    intro t _
    simp [Function.comp, List.getD_cons_succ]

lemma sampleVar_nonneg (l : List ℚ) : 0 ≤ sampleVar l := by
  cases l with
  | nil => simp [sampleVar, listMean]
  | cons x xs =>
    apply div_nonneg
    · apply List.sum_nonneg
      intro y hy
      obtain ⟨z, _, rfl⟩ := List.mem_map.mp hy
      positivity
    · have h1 : 1 ≤ (x :: xs).length := by simp
      have : (1 : ℚ) ≤ ((x :: xs).length : ℚ) := by exact_mod_cast h1
      linarith

/-- With the first return pinned at 0, the squared mean is at most
`(n-1) ·` the sample variance (the reason the annualized Sharpe of any
equity curve is bounded by `√252·√(n-1)`). -/
lemma listMean_sq_le (l : List ℚ) (h0 : l.headD 0 = 0) (h2 : 2 ≤ l.length) :
    (listMean l) ^ 2 ≤ ((l.length : ℚ) - 1) * sampleVar l := by
  have hm : ((l.length : ℚ) - 1) ≠ 0 := by
    have : (2 : ℚ) ≤ (l.length : ℚ) := by exact_mod_cast h2
    linarith
  rw [sampleVar, mul_div_cancel₀ _ hm]
  cases l with
  | nil => simp at h2
  | cons x xs =>
    have hx : x = 0 := h0
    subst hx
    rw [List.map_cons, List.sum_cons]
    have h1 : (0 - listMean (0 :: xs)) ^ 2 = (listMean (0 :: xs)) ^ 2 := by ring
    rw [h1]
    have h3 : 0 ≤ (xs.map (fun x => (x - listMean (0 :: xs)) ^ 2)).sum := by
      apply List.sum_nonneg
      intro y hy
      obtain ⟨z, _, rfl⟩ := List.mem_map.mp hy
      positivity
    linarith

/-- The `sharpe` of `compute_metrics` is bounded by `√252·√(n-1)` in
absolute value, `n` the equity curve's length. -/
lemma sharpe_abs_le (equity trade_returns : List ℚ) :
    |(compute_metrics equity trade_returns).sharpe| ≤
      Real.sqrt 252 * Real.sqrt ((equity.length : ℝ) - 1) := by
  have hlen : (pctChange equity).length = equity.length := pctChange_length equity
  have hsh : (compute_metrics equity trade_returns).sharpe =
      if (pctChange equity).length < 2 ∨ sampleVar (pctChange equity) = 0 then (0 : ℝ)
      else ((listMean (pctChange equity) : ℝ) /
          Real.sqrt (sampleVar (pctChange equity))) * Real.sqrt 252 := rfl
  by_cases hg : (pctChange equity).length < 2 ∨ sampleVar (pctChange equity) = 0
  · rw [hsh, if_pos hg]
    simp only [abs_zero]
    positivity
  · rw [hsh, if_neg hg]
    push_neg at hg
    obtain ⟨h2, hv⟩ := hg
    have hvpos : (0 : ℚ) < sampleVar (pctChange equity) :=
      lt_of_le_of_ne (sampleVar_nonneg _) (Ne.symm hv)
    have h0 : (pctChange equity).headD 0 = 0 := by
      cases equity with
      | nil => rfl
      | cons x xs => rfl
    have hkey : (listMean (pctChange equity)) ^ 2 ≤
        (((pctChange equity).length : ℚ) - 1) * sampleVar (pctChange equity) :=
      listMean_sq_le _ h0 (by omega)
    rw [hlen] at hkey h2
    set μ : ℚ := listMean (pctChange equity) with hμ
    set v : ℚ := sampleVar (pctChange equity) with hv'
    have hvR : (0 : ℝ) < (v : ℝ) := by exact_mod_cast hvpos
    have hsq : Real.sqrt (v : ℝ) > 0 := Real.sqrt_pos.mpr hvR
    have hn1 : (0 : ℝ) ≤ (equity.length : ℝ) - 1 := by
      have : (2 : ℝ) ≤ (equity.length : ℝ) := by exact_mod_cast h2
      linarith
    rw [abs_mul, abs_div]
    rw [abs_of_nonneg (Real.sqrt_nonneg (v : ℝ)),
      abs_of_nonneg (Real.sqrt_nonneg (252 : ℝ))]
    rw [mul_comm (Real.sqrt 252) (Real.sqrt ((equity.length : ℝ) - 1))]
    apply mul_le_mul_of_nonneg_right _ (Real.sqrt_nonneg _)
    rw [div_le_iff₀ hsq]
    have hmul : Real.sqrt ((equity.length : ℝ) - 1) * Real.sqrt (v : ℝ) =
        Real.sqrt (((equity.length : ℝ) - 1) * (v : ℝ)) :=
      (Real.sqrt_mul hn1 _).symm
    rw [hmul]
    rw [Real.le_sqrt (abs_nonneg _) (by positivity)]
    rw [sq_abs]
    exact_mod_cast hkey

/-- C4: the `sharpe` field of `compute_metrics` is 0 when the standard
deviation of the per-period returns is zero or undefined (fewer than 2
points), otherwise equals `mean(r)/stddev(r)·√252`; and it is always a
well-defined real, bounded by `√252·√(n-1)` in absolute value (hence
never NaN/Inf). -/
theorem compute_metrics_sharpe (equity trade_returns : List ℚ) :
    (equity.length < 2 → (compute_metrics equity trade_returns).sharpe = 0)
    ∧ (sampleVar (specReturns equity) = 0 →
        (compute_metrics equity trade_returns).sharpe = 0)
    ∧ (2 ≤ equity.length → sampleVar (specReturns equity) ≠ 0 →
        (compute_metrics equity trade_returns).sharpe =
          ((listMean (specReturns equity) : ℝ) /
              Real.sqrt (sampleVar (specReturns equity))) * Real.sqrt 252)
    ∧ |(compute_metrics equity trade_returns).sharpe| ≤
        Real.sqrt 252 * Real.sqrt ((equity.length : ℝ) - 1) := by
  have hret : pctChange equity = specReturns equity := pctChange_eq_specReturns equity
  have hlen : (pctChange equity).length = equity.length := pctChange_length equity
  have hsh : (compute_metrics equity trade_returns).sharpe =
      if (pctChange equity).length < 2 ∨ sampleVar (pctChange equity) = 0 then (0 : ℝ)
      else ((listMean (pctChange equity) : ℝ) /
          Real.sqrt (sampleVar (pctChange equity))) * Real.sqrt 252 := rfl
  refine ⟨?_, ?_, ?_, ?_⟩
  · intro h
    rw [hsh, if_pos (Or.inl (by omega))]
  · intro h
    rw [hsh, if_pos (Or.inr (by rw [hret]; exact h))]
  · intro h2 hv
    rw [hsh, if_neg, hret]
    rw [hret, hlen] at *
    push_neg
    exact ⟨by omega, hv⟩
  · exact sharpe_abs_le equity trade_returns

/-- Witness for C4 at concrete inputs: the flat curve `[1,1]` has zero
variance and Sharpe 0; the curve `[1,2]` hits the `mean/std·√252`
branch. -/
theorem compute_metrics_sharpe_witness :
    (compute_metrics [(1 : ℚ), 1] []).sharpe = 0
    ∧ (compute_metrics [(1 : ℚ), 2] []).sharpe =
        ((listMean (specReturns [(1 : ℚ), 2]) : ℝ) /
            Real.sqrt (sampleVar (specReturns [(1 : ℚ), 2]))) * Real.sqrt 252 :=
  ⟨(compute_metrics_sharpe [(1 : ℚ), 1] []).2.1
      (by simp [specReturns, List.range_succ, sampleVar, listMean]),
   (compute_metrics_sharpe [(1 : ℚ), 2] []).2.2.1 (by simp)
      (by simp [specReturns, List.range_succ, sampleVar, listMean]; norm_num)⟩

/-! ### C6: the inline in-sample evaluation refines `run_backtest` -/

/-- The `sharpe` field of `compute_metrics` does not depend on the
`trade_returns` argument (the one place the inline walk-forward
evaluation passes different data than `run_backtest`). -/
lemma compute_metrics_sharpe_only_equity (e t1 t2 : List ℚ) :
    (compute_metrics e t1).sharpe = (compute_metrics e t2).sharpe := rfl

/-- C6: for every window and parameter set on which `run_backtest`
succeeds, the Sharpe ratio recorded by the inline in-sample evaluation
of `run_walkforward` equals the `sharpe` field of the `run_backtest`
report on the same window with the same strategy name and parameters. -/
theorem inline_matches_backtest (df : DF) (strategy_name : String) (params : Params)
    (r : BacktestResult) (hok : run_backtest df strategy_name params = .ok r) :
    inlineSharpe df strategy_name params = .ok r.report.sharpe := by
  rw [run_backtest] at hok
  rw [inlineSharpe]
  cases hcs : create_strategy strategy_name params with
  | error msg => rw [hcs] at hok; simp at hok
  | ok strat =>
    rw [hcs] at hok
    simp only [ok_bind] at hok ⊢
    cases hok
    rfl

/-- Witness for C6 at a concrete input: a flat 2-row series with
`fast = slow = 1`. -/
theorem inline_matches_backtest_witness :
    run_backtest [((0 : ℕ), (1 : ℚ)), (1, 1)] "sma_cross" [("fast", 1), ("slow", 1)] =
      .ok ⟨⟨0, 0, 0, 0, 0⟩, [1, 1], [0, 1]⟩
    ∧ inlineSharpe [((0 : ℕ), (1 : ℚ)), (1, 1)] "sma_cross" [("fast", 1), ("slow", 1)] =
      .ok (0 : ℝ) := by
  have hok : run_backtest [((0 : ℕ), (1 : ℚ)), (1, 1)] "sma_cross"
      [("fast", 1), ("slow", 1)] = .ok ⟨⟨0, 0, 0, 0, 0⟩, [1, 1], [0, 1]⟩ := by
    simp +decide [run_backtest, create_strategy, SmaCross.generate_signals, signalsAux,
      smaSignalAt, rollingMean, rollingWindow, listMean, mergeSignals, shift1,
      pctChange, pctAux, cumprod, cumAux, compute_metrics, sampleVar, cummax,
      cummaxAux, diffAbs0, List.lookup]
  exact ⟨hok, inline_matches_backtest _ _ _ _ hok⟩

/-! ### C9: the `sma_cross` rolling means and signals -/

/-- Spec-side rolling mean: the mean of whatever history exists, i.e.
the sum of the last `min w (t+1)` closes divided by their count
(expanding/partial windows when fewer than `w` observations exist). -/
def specMean (w : ℕ) (closes : List ℚ) (t : ℕ) : ℚ :=
  (∑ j ∈ Finset.Ico (t + 1 - w) (t + 1), closes.getD j 0) / (min w (t + 1) : ℕ)

lemma list_sum_getD (l : List ℚ) :
    l.sum = ∑ i ∈ Finset.range l.length, l.getD i 0 := by
  induction l with
  | nil => simp
  | cons x xs ih =>
    rw [List.sum_cons, List.length_cons, Finset.sum_range_succ', ih]
    simp [add_comm]

lemma window_sum (l : List ℚ) (a b : ℕ) (hab : a ≤ b) (hb : b ≤ l.length) :
    ((l.take b).drop a).sum = ∑ j ∈ Finset.Ico a b, l.getD j 0 := by
  rw [list_sum_getD]
  have hlen : ((l.take b).drop a).length = b - a := by
    rw [List.length_drop, List.length_take]
    omega
  rw [hlen, Finset.sum_Ico_eq_sum_range]
  apply Finset.sum_congr rfl
  intro i hi
  rw [Finset.mem_range] at hi
  have h1 : i < ((l.take b).drop a).length := by omega
  have h2 : a + i < l.length := by omega
  rw [List.getD_eq_getElem _ _ h1, List.getD_eq_getElem _ _ h2]
  rw [List.getElem_drop, List.getElem_take]

lemma rollingMean_eq_specMean (w : ℕ) (l : List ℚ) (t : ℕ) (ht : t < l.length) :
    rollingMean w l t = specMean w l t := by
  rw [rollingMean, specMean, listMean, rollingWindow]
  rw [window_sum l (t + 1 - w) (t + 1) (by omega) (by omega)]
  have hlen : ((l.take (t + 1)).drop (t + 1 - w)).length = min w (t + 1) := by
    rw [List.length_drop, List.length_take]
    omega
  rw [hlen]

lemma rollingMean_zero (w : ℕ) (l : List ℚ) (hw : 1 ≤ w) (hl : 0 < l.length) :
    rollingMean w l 0 = l.getD 0 0 := by
  cases l with
  | nil => simp at hl
  | cons x xs =>
    rw [rollingMean, rollingWindow]
    have h1 : 1 - w = 0 := by omega
    rw [h1]
    show listMean [x] = x
    simp [listMean]

/-- C9: for valid windows `fast, slow ≥ 1`, the `sma_cross` signal at
every index `t` compares the expanding/partial rolling means (the mean
of whatever history exists, per `specMean`): `+1` when the fast mean is
strictly greater, `-1` when strictly smaller, 0 on exact equality; at
the first observation both means equal `close[0]` and the signal is 0. -/
theorem sma_cross_signal_cases (closes : List ℚ) (fast slow : ℤ)
    (hf : 1 ≤ fast) (hs : 1 ≤ slow) :
    (∀ t, t < closes.length →
      smaSignalAt ⟨fast, slow⟩ closes t =
        (if specMean fast.toNat closes t > specMean slow.toNat closes t then 1
         else if specMean fast.toNat closes t < specMean slow.toNat closes t then -1
         else 0))
    ∧ (0 < closes.length →
        rollingMean fast.toNat closes 0 = closes.getD 0 0
        ∧ rollingMean slow.toNat closes 0 = closes.getD 0 0
        ∧ smaSignalAt ⟨fast, slow⟩ closes 0 = 0) := by
  constructor
  · intro t ht
    rw [smaSignalAt]
    rw [rollingMean_eq_specMean _ _ _ ht, rollingMean_eq_specMean _ _ _ ht]
  · intro hl
    have hf' : 1 ≤ fast.toNat := by omega
    have hs' : 1 ≤ slow.toNat := by omega
    refine ⟨rollingMean_zero _ _ hf' hl, rollingMean_zero _ _ hs' hl, ?_⟩
    rw [smaSignalAt]
    rw [rollingMean_zero _ _ hf' hl, rollingMean_zero _ _ hs' hl]
    simp

/-- Witness for C9 at a concrete input: `closes = [100, 101]`,
`fast = 1`, `slow = 2`; at `t = 1` the fast mean 101 exceeds the slow
mean 100.5, and at `t = 0` both means are 100 with signal 0. -/
theorem sma_cross_signal_cases_witness :
    smaSignalAt ⟨1, 2⟩ [(100 : ℚ), 101] 1 =
      (if specMean 1 [(100 : ℚ), 101] 1 > specMean 2 [(100 : ℚ), 101] 1 then 1
       else if specMean 1 [(100 : ℚ), 101] 1 < specMean 2 [(100 : ℚ), 101] 1 then -1
       else 0)
    ∧ rollingMean 1 [(100 : ℚ), 101] 0 = 100
    ∧ smaSignalAt ⟨1, 2⟩ [(100 : ℚ), 101] 0 = 0 := by
  obtain ⟨h1, h2⟩ := sma_cross_signal_cases [(100 : ℚ), 101] 1 2 (by decide) (by decide)
  obtain ⟨hm, _, hsig⟩ := h2 (by decide)
  exact ⟨h1 1 (by decide), hm, hsig⟩

/-! ### Walk-forward loop characterization (C1, C7, C10 backbone) -/

lemma tsFirst_window (df : DF) (i m : ℕ) (hi : i < df.length) (hm : 1 ≤ m) :
    tsFirst ((df.drop i).take m) = tsAt df i := by
  rw [tsFirst, tsAt, List.map_take, List.map_drop]
  have hL : (df.map Prod.fst).length = df.length := List.length_map _ _
  have h1 : 0 < (((df.map Prod.fst).drop i).take m).length := by
    rw [List.length_take, List.length_drop]; omega
  rw [List.headD_eq_head?, List.head?_eq_getElem?, List.getElem?_eq_getElem h1,
    List.getElem_take, List.getElem_drop, List.getD_eq_getElem?_getD,
    List.getElem?_eq_getElem (by omega : i < (df.map Prod.fst).length)]
  simp

lemma tsLast_window (df : DF) (i m : ℕ) (h : i + m ≤ df.length) (hm : 1 ≤ m) :
    tsLast ((df.drop i).take m) = tsAt df (i + m - 1) := by
  rw [tsLast, tsAt, List.map_take, List.map_drop]
  have hL : (df.map Prod.fst).length = df.length := List.length_map _ _
  have hlen : (((df.map Prod.fst).drop i).take m).length = m := by
    rw [List.length_take, List.length_drop]; omega
  have h1 : m - 1 < (((df.map Prod.fst).drop i).take m).length := by omega
  rw [List.getLastD_eq_getLast?, List.getLast?_eq_getElem?, hlen,
    List.getElem?_eq_getElem h1, List.getElem_take, List.getElem_drop,
    List.getD_eq_getElem?_getD,
    List.getElem?_eq_getElem (by omega : i + m - 1 < (df.map Prod.fst).length)]
  simp only [Option.getD_some]
  have : i + (m - 1) = i + m - 1 := by omega
  simp only [this]

lemma oosEval_ok (oos_df : DF) (strategy_name : String) (bp : Option Params)
    (res : List ℚ × List ℕ)
    (hok : oosEval oos_df strategy_name bp = .ok res) :
    res.1.length = oos_df.length ∧ res.2 = oos_df.map Prod.fst ∧ res.1.headD 0 = 0 := by
  rw [oosEval] at hok
  cases hcs : create_strategy strategy_name (bp.getD []) with
  | error m => rw [hcs] at hok; simp at hok
  | ok strat =>
    rw [hcs] at hok
    simp only [ok_bind] at hok
    cases hok
    refine ⟨?_, rfl, ?_⟩
    · rw [List.length_zipWith, shift1_length, mergeSignals_length,
        pctChange_length, List.length_map, min_self]
    · cases oos_df with
      | nil => rfl
      | cons r rest => simp [mergeSignals, shift1, pctChange]

lemma numWindows_step (n i ins outs : ℕ) (h : i + ins + outs ≤ n) (houts : 1 ≤ outs) :
    numWindows (n - i) ins outs = numWindows (n - (i + outs)) ins outs + 1 := by
  rw [numWindows, numWindows, if_neg (by omega)]
  by_cases h2 : n - (i + outs) < ins + outs
  · rw [if_pos h2]
    have hlt : n - i - ins - outs < outs := by omega
    rw [Nat.div_eq_of_lt hlt]
  · rw [if_neg h2]
    have heq : n - i - ins - outs = (n - (i + outs) - ins - outs) + outs := by omega
    rw [heq, Nat.add_div_right _ (by omega)]

/-- Full characterization of a successful run of the walk-forward loop
from cursor `i`: it emits exactly `numWindows (n-i)` segments, whose
`k`-th in-sample window is `df[i+k·outs : i+k·outs+ins]` and whose
out-of-sample window is the following `outs` rows, and it accumulates
`outs` out-of-sample returns and timestamps per segment. -/
lemma walkLoop_ok_spec (df : DF) (strategy_name : String) (grid : List Params)
    (ins outs : ℕ) (hins : 1 ≤ ins) (houts : 1 ≤ outs) :
    ∀ (fuel i : ℕ) (segs : List Segment) (rets : List ℚ) (tss : List ℕ),
    df.length ≤ i + fuel →
    walkLoop df strategy_name grid ins outs fuel i = .ok (segs, rets, tss) →
    segs.length = numWindows (df.length - i) ins outs
    ∧ rets.length = numWindows (df.length - i) ins outs * outs
    ∧ tss.length = numWindows (df.length - i) ins outs * outs
    ∧ ∀ k (hk : k < segs.length),
        (segs.get ⟨k, hk⟩).is_range =
          (tsAt df (i + k * outs), tsAt df (i + k * outs + ins - 1))
        ∧ (segs.get ⟨k, hk⟩).oos_range =
          (tsAt df (i + k * outs + ins), tsAt df (i + k * outs + ins + outs - 1)) := by
  intro fuel
  induction fuel with
  | zero =>
    intro i segs rets tss hfuel hok
    rw [walkLoop] at hok
    cases hok
    have h0 : numWindows (df.length - i) ins outs = 0 := by
      rw [numWindows, if_pos (by omega)]
    refine ⟨by simp [h0], by simp [h0], by simp [h0], ?_⟩
    intro k hk
    simp at hk
  | succ fuel ih =>
    intro i segs rets tss hfuel hok
    rw [walkLoop] at hok
    by_cases hg : df.length < i + ins + outs
    · rw [if_pos hg] at hok
      cases hok
      have h0 : numWindows (df.length - i) ins outs = 0 := by
        rw [numWindows, if_pos (by omega)]
      refine ⟨by simp [h0], by simp [h0], by simp [h0], ?_⟩
      intro k hk
      simp at hk
    · rw [if_neg hg] at hok
      dsimp only at hok
      push_neg at hg
      cases hgs : gridSearch ((df.drop i).take ins) strategy_name grid
          (-(1000000000 : ℝ)) none with
      | error m => rw [hgs] at hok; simp at hok
      | ok bsp =>
        rw [hgs] at hok
        obtain ⟨bs, bp⟩ := bsp
        simp only [ok_bind] at hok
        cases hoe : oosEval ((df.drop (i + ins)).take outs) strategy_name bp with
        | error m => rw [hoe] at hok; simp at hok
        | ok oo =>
          rw [hoe] at hok
          obtain ⟨oret, ots⟩ := oo
          simp only [ok_bind] at hok
          cases hwl : walkLoop df strategy_name grid ins outs fuel (i + outs) with
          | error m => rw [hwl] at hok; simp at hok
          | ok tri =>
            rw [hwl] at hok
            obtain ⟨segs', rets', tss'⟩ := tri
            simp only [ok_bind] at hok
            cases hok
            have hfuel' : df.length ≤ (i + outs) + fuel := by omega
            obtain ⟨hlen', hrlen', htlen', hranges'⟩ :=
              ih (i + outs) segs' rets' tss' hfuel' hwl
            obtain ⟨holen, hots, _⟩ := oosEval_ok _ _ _ _ hoe
            dsimp only at holen hots
            have hoos_len : ((df.drop (i + ins)).take outs).length = outs := by
              rw [List.length_take, List.length_drop]; omega
            have hstep : numWindows (df.length - i) ins outs =
                numWindows (df.length - (i + outs)) ins outs + 1 :=
              numWindows_step _ _ _ _ hg houts
            have hmul : (numWindows (df.length - (i + outs)) ins outs + 1) * outs =
                numWindows (df.length - (i + outs)) ins outs * outs + outs :=
              Nat.succ_mul _ _
            refine ⟨?_, ?_, ?_, ?_⟩
            · simp [hlen', hstep]
            · rw [List.length_append, holen, hoos_len, hrlen', hstep, hmul]
              omega
            · rw [List.length_append, hots, List.length_map, hoos_len, htlen',
                hstep, hmul]
              omega
            · intro k hk
              cases k with
              | zero =>
                constructor
                · show (tsFirst _, tsLast _) = _
                  rw [tsFirst_window df i ins (by omega) hins,
                    tsLast_window df i ins (by omega) hins]
                  simp
                · show (tsFirst _, tsLast _) = _
                  rw [tsFirst_window df (i + ins) outs (by omega) houts,
                    tsLast_window df (i + ins) outs (by omega) houts]
                  simp [Nat.add_assoc]
              | succ k =>
                have hk' : k < segs'.length := by
                  simp at hk
                  omega
                have hr := hranges' k hk'
                have harith : i + outs + k * outs = i + (k + 1) * outs := by ring
                rw [harith] at hr
                simpa using hr

lemma sortBy_rowLe_eq_self (df : DF) (h : dfSorted df) : sortBy rowLe df = df := by
  apply sortBy_eq_self
  apply List.Pairwise.imp _ h
  intro a b hab
  simp [rowLe, hab]

/-- C1: on a sorted series, a successful walk-forward run extracts
exactly `numWindows` windows, the `k`-th segment covering in-sample
rows `[k·outs, k·outs+ins)` and out-of-sample rows
`[k·outs+ins, k·outs+ins+outs)` (the cursor advances by
`outsample_days` and stops as soon as the out-of-sample window would
pass the end), and accumulates `outs` out-of-sample periods per
segment. -/
theorem run_walkforward_windows (df : DF) (strategy_name : String)
    (param_space : ParamSpace) (ins outs : ℕ) (hins : 1 ≤ ins) (houts : 1 ≤ outs)
    (hsort : dfSorted df) (r : WalkForwardResult)
    (hok : run_walkforward df strategy_name param_space ins outs = .ok r) :
    r.segments.length = numWindows df.length ins outs
    ∧ (∀ k (hk : k < r.segments.length),
        (r.segments.get ⟨k, hk⟩).is_range =
          (tsAt df (k * outs), tsAt df (k * outs + ins - 1))
        ∧ (r.segments.get ⟨k, hk⟩).oos_range =
          (tsAt df (k * outs + ins), tsAt df (k * outs + ins + outs - 1)))
    ∧ oosPeriodCount r = numWindows df.length ins outs * outs := by
  rw [run_walkforward, sortBy_rowLe_eq_self df hsort] at hok
  cases hwl : walkLoop df strategy_name (_grid param_space) ins outs (df.length + 1) 0 with
  | error m => rw [hwl] at hok; simp at hok
  | ok tri =>
    rw [hwl] at hok
    obtain ⟨segs, rets, tss⟩ := tri
    simp only [ok_bind] at hok
    obtain ⟨hlen, hrlen, htlen, hranges⟩ :=
      walkLoop_ok_spec df strategy_name (_grid param_space) ins outs hins houts
        (df.length + 1) 0 segs rets tss (by omega) hwl
    simp only [Nat.sub_zero, Nat.zero_add] at hlen hrlen htlen hranges
    by_cases hz : rets.length = 0
    · rw [if_pos hz] at hok
      cases hok
      refine ⟨hlen, hranges, ?_⟩
      show (0 : ℕ) = _
      omega
    · rw [if_neg hz] at hok
      cases hok
      refine ⟨hlen, hranges, ?_⟩
      simpa [oosPeriodCount, oosLen] using htlen

/-- C7: whenever a successful walk-forward run produced at least one
out-of-sample period, `overfit_risk` is reported and equals
`max(0, 1 - oos_sharpe/(|median(in_sample_sharpes)| + 1e-9))`; it is
never negative, and is strictly positive whenever the out-of-sample
Sharpe is below the median of the in-sample best Sharpes. -/
theorem overfit_risk_formula (df : DF) (strategy_name : String)
    (param_space : ParamSpace) (ins outs : ℕ) (hins : 1 ≤ ins) (houts : 1 ≤ outs)
    (r : WalkForwardResult) (o : OosResult)
    (hok : run_walkforward df strategy_name param_space ins outs = .ok r)
    (ho : r.oos = some o) :
    ∃ v, r.overfit_risk = some v
    ∧ v = max 0 (1 - o.report.sharpe /
        (|npMedian (r.segments.map Segment.best_is_sharpe)| + 1 / 1000000000))
    ∧ 0 ≤ v
    ∧ (o.report.sharpe < npMedian (r.segments.map Segment.best_is_sharpe) → 0 < v) := by
  rw [run_walkforward] at hok
  cases hwl : walkLoop (sortBy rowLe df) strategy_name (_grid param_space) ins outs
      ((sortBy rowLe df).length + 1) 0 with
  | error m => rw [hwl] at hok; simp at hok
  | ok tri =>
    rw [hwl] at hok
    obtain ⟨segs, rets, tss⟩ := tri
    simp only [ok_bind] at hok
    by_cases hz : rets.length = 0
    · rw [if_pos hz] at hok
      cases hok
      simp at ho
    · rw [if_neg hz] at hok
      cases hok
      obtain rfl : o = ⟨compute_metrics (cumprod (rets.map (fun x => 1 + x))) rets, tss⟩ := by
        simpa using ho.symm
      obtain ⟨hlen, hrlen, _, _⟩ :=
        walkLoop_ok_spec (sortBy rowLe df) strategy_name (_grid param_space) ins outs
          hins houts ((sortBy rowLe df).length + 1) 0 segs rets tss (by omega) hwl
      have hsegs : segs ≠ [] := by
        intro hnil
        rw [hnil] at hlen
        simp only [List.length_nil] at hlen
        rw [hrlen, ← hlen] at hz
        simp at hz
      have hmap : segs.map Segment.best_is_sharpe ≠ [] := by
        simpa using hsegs
      refine ⟨_, rfl, ?_, ?_, ?_⟩
      · rw [if_neg hmap]
      · exact le_max_left _ _
      · intro hlt
        set s := (compute_metrics (cumprod (rets.map (fun x => 1 + x))) rets).sharpe
        set m := npMedian (segs.map Segment.best_is_sharpe) with hm
        rw [if_neg hmap]
        have hd : (0 : ℝ) < |m| + 1 / 1000000000 := by positivity
        have hsm : s < |m| + 1 / 1000000000 :=
          lt_of_lt_of_le hlt (le_trans (le_abs_self m) (by norm_num))
        have hq : s / (|m| + 1 / 1000000000) < 1 := (div_lt_one hd).mpr hsm
        have hw : 0 < 1 - s / (|m| + 1 / 1000000000) := by linarith
        exact lt_max_of_lt_right hw

/-! ### C10: out-of-sample windows restart with position 0 -/

lemma oosEval_single (row : Row) (strategy_name : String) (bp : Option Params)
    (res : List ℚ × List ℕ) (hok : oosEval [row] strategy_name bp = .ok res) :
    res.1 = [0] := by
  rw [oosEval] at hok
  cases hcs : create_strategy strategy_name (bp.getD []) with
  | error m => rw [hcs] at hok; simp at hok
  | ok strat =>
    rw [hcs] at hok
    simp only [ok_bind] at hok
    cases hok
    simp [mergeSignals, shift1, pctChange]

/-- With `outsample_days = 1` every accumulated out-of-sample return is
0: each window is re-evaluated in isolation and its lagged position
starts at 0. -/
lemma walkLoop_rets_zero (df : DF) (strategy_name : String) (grid : List Params)
    (ins : ℕ) :
    ∀ (fuel i : ℕ) (segs : List Segment) (rets : List ℚ) (tss : List ℕ),
    walkLoop df strategy_name grid ins 1 fuel i = .ok (segs, rets, tss) →
    ∀ x ∈ rets, x = 0 := by
  intro fuel
  induction fuel with
  | zero =>
    intro i segs rets tss hok
    rw [walkLoop] at hok
    cases hok
    simp
  | succ fuel ih =>
    intro i segs rets tss hok
    rw [walkLoop] at hok
    by_cases hg : df.length < i + ins + 1
    · rw [if_pos hg] at hok
      cases hok
      simp
    · rw [if_neg hg] at hok
      dsimp only at hok
      push_neg at hg
      cases hgs : gridSearch ((df.drop i).take ins) strategy_name grid
          (-(1000000000 : ℝ)) none with
      | error m => rw [hgs] at hok; simp at hok
      | ok bsp =>
        rw [hgs] at hok
        obtain ⟨bs, bp⟩ := bsp
        simp only [ok_bind] at hok
        cases hoe : oosEval ((df.drop (i + ins)).take 1) strategy_name bp with
        | error m => rw [hoe] at hok; simp at hok
        | ok oo =>
          rw [hoe] at hok
          obtain ⟨oret, ots⟩ := oo
          simp only [ok_bind] at hok
          cases hwl : walkLoop df strategy_name grid ins 1 fuel (i + 1) with
          | error m => rw [hwl] at hok; simp at hok
          | ok tri =>
            rw [hwl] at hok
            obtain ⟨segs', rets', tss'⟩ := tri
            simp only [ok_bind] at hok
            cases hok
            have hoos_len : ((df.drop (i + ins)).take 1).length = 1 := by
              rw [List.length_take, List.length_drop]; omega
            obtain ⟨row, hrow⟩ := List.length_eq_one.mp hoos_len
            rw [hrow] at hoe
            have hor : oret = [0] := oosEval_single row strategy_name bp _ hoe
            intro x hx
            rcases List.mem_append.mp hx with h | h
            · rw [hor] at h
              simpa using h
            · exact ih (i + 1) segs' rets' tss' hwl x h

lemma cumAux_replicate_one (a : ℚ) (n : ℕ) :
    cumAux a (List.replicate n 1) = List.replicate n a := by
  induction n generalizing a with
  | zero => rfl
  | succ n ih => simp [List.replicate_succ, cumAux, ih]

lemma pctAux_replicate_one (m : ℕ) :
    pctAux 1 (List.replicate m 1) = List.replicate m 0 := by
  induction m with
  | zero => rfl
  | succ m ih => simp [List.replicate_succ, pctAux, ih]

lemma getLastD_replicate (n : ℕ) (hn : 1 ≤ n) (x d : ℚ) :
    (List.replicate n x).getLastD d = x := by
  induction n with
  | zero => omega
  | succ n ih =>
    cases n with
    | zero => rfl
    | succ n => simpa [List.replicate_succ] using ih (by omega)

lemma sampleVar_replicate_zero (n : ℕ) : sampleVar (List.replicate n 0) = 0 := by
  simp [sampleVar, listMean]

/-- `compute_metrics` on the constant-1 equity curve produced by
all-zero returns: total return 0, Sharpe 0. -/
lemma compute_metrics_flat (n : ℕ) (hn : 1 ≤ n) (tr : List ℚ) :
    (compute_metrics (List.replicate n 1) tr).total_return = 0
    ∧ (compute_metrics (List.replicate n 1) tr).sharpe = 0 := by
  have hret : pctChange (List.replicate n 1) = List.replicate n 0 := by
    cases n with
    | zero => omega
    | succ n =>
      rw [List.replicate_succ, pctChange, pctAux_replicate_one]
      rfl
  constructor
  · show (List.map _ (List.replicate n 1)).getLastD 1 - 1 = 0
    have hh : (List.replicate n (1 : ℚ)).headD 1 = 1 := by
      cases n with
      | zero => omega
      | succ n => rfl
    rw [hh]
    simp only [List.map_replicate, div_one]
    rw [getLastD_replicate n hn]
    ring
  · show (if _ ∨ _ then (0 : ℝ) else _) = 0
    rw [if_pos]
    right
    rw [hret, sampleVar_replicate_zero]

/-- C10: each out-of-sample window is re-evaluated in isolation, so its
first strategy return is always 0; consequently with
`outsample_days = 1` every accumulated out-of-sample return is 0 and
the aggregated `oos` report has `total_return = 0` and `sharpe = 0`. -/
theorem oos_restart_flat :
    (∀ (oos_df : DF) (strategy_name : String) (bp : Option Params)
        (res : List ℚ × List ℕ),
      oosEval oos_df strategy_name bp = .ok res → res.1.headD 0 = 0)
    ∧ ∀ (df : DF) (strategy_name : String) (param_space : ParamSpace) (ins : ℕ)
        (r : WalkForwardResult) (o : OosResult),
        run_walkforward df strategy_name param_space ins 1 = .ok r →
        r.oos = some o →
        o.report.total_return = 0 ∧ o.report.sharpe = 0 := by
  constructor
  · intro oos_df strategy_name bp res hok
    exact (oosEval_ok _ _ _ _ hok).2.2
  · intro df strategy_name param_space ins r o hok ho
    rw [run_walkforward] at hok
    cases hwl : walkLoop (sortBy rowLe df) strategy_name (_grid param_space) ins 1
        ((sortBy rowLe df).length + 1) 0 with
    | error m => rw [hwl] at hok; simp at hok
    | ok tri =>
      rw [hwl] at hok
      obtain ⟨segs, rets, tss⟩ := tri
      simp only [ok_bind] at hok
      by_cases hz : rets.length = 0
      · rw [if_pos hz] at hok
        cases hok
        simp at ho
      · rw [if_neg hz] at hok
        cases hok
        obtain rfl : o = ⟨compute_metrics (cumprod (rets.map (fun x => 1 + x))) rets, tss⟩ := by
          simpa using ho.symm
        have hall : ∀ x ∈ rets, x = 0 :=
          walkLoop_rets_zero _ _ _ _ _ _ _ _ _ hwl
        have hrep : rets = List.replicate rets.length 0 := by
          apply List.eq_replicate_of_mem
          exact hall
        have heq : cumprod (rets.map (fun x => 1 + x)) =
            List.replicate rets.length 1 := by
          conv_lhs => rw [hrep]
          rw [List.map_replicate]
          show cumAux 1 (List.replicate rets.length (1 + 0)) = _
          rw [add_zero, cumAux_replicate_one]
        rw [heq]
        exact compute_metrics_flat _ (by omega) _

/-! ### Concrete walk-forward evaluations shared by witnesses -/

/-- A full concrete run: flat 6-row series, `insample_days = 3`,
`outsample_days = 1`, parameter space `{fast: []}` (empty candidate
list, hence an empty grid): three windows at cursor offsets 0, 1, 2,
each with `best_params = None` and sentinel Sharpe, three out-of-sample
periods all returning 0. -/
lemma wfFlat6Run :
    run_walkforward [((0 : ℕ), (1 : ℚ)), (1, 1), (2, 1), (3, 1), (4, 1), (5, 1)]
        "sma_cross" [("fast", [])] 3 1 =
      .ok ⟨[⟨(0, 2), (3, 3), none, -1000000000⟩, ⟨(1, 3), (4, 4), none, -1000000000⟩,
            ⟨(2, 4), (5, 5), none, -1000000000⟩],
           some ⟨⟨0, 0, 0, 0, 3⟩, [3, 4, 5]⟩, some 1⟩ := by
  have hre : ∀ x : ℝ, realLe x x = true := by intro x; simp [realLe]
  simp +decide [run_walkforward, walkLoop, gridSearch, oosEval, _grid, sortBy,
    insertSorted, cartesianProduct, strLe, rowLe, create_strategy,
    SmaCross.generate_signals, signalsAux, smaSignalAt, rollingMean, rollingWindow,
    listMean, mergeSignals, shift1, pctChange, pctAux, cumprod, cumAux,
    compute_metrics, sampleVar, cummax, cummaxAux, npMedian, realLe, hre,
    tsFirst, tsLast, List.lookup]

/-- Witness for C1 at the concrete input of Scenario 3: 6-row series,
`insample_days = 3`, `outsample_days = 1` gives exactly 3 segments and
3 accumulated out-of-sample periods. -/
theorem run_walkforward_windows_witness :
    ([⟨(0, 2), (3, 3), none, -1000000000⟩, ⟨(1, 3), (4, 4), none, -1000000000⟩,
      ⟨(2, 4), (5, 5), none, -1000000000⟩] : List Segment).length = numWindows 6 3 1
    ∧ oosPeriodCount
        ⟨[⟨(0, 2), (3, 3), none, -1000000000⟩, ⟨(1, 3), (4, 4), none, -1000000000⟩,
          ⟨(2, 4), (5, 5), none, -1000000000⟩],
         some ⟨⟨0, 0, 0, 0, 3⟩, [3, 4, 5]⟩, some 1⟩ = numWindows 6 3 1 * 1
    ∧ numWindows 6 3 1 = 3 := by
  obtain ⟨h1, h2, h3⟩ := run_walkforward_windows
    [((0 : ℕ), (1 : ℚ)), (1, 1), (2, 1), (3, 1), (4, 1), (5, 1)] "sma_cross"
    [("fast", [])] 3 1 (by decide) (by decide)
    (by unfold dfSorted; simp) _ wfFlat6Run
  exact ⟨h1, h3, by decide⟩

/-- Witness for C7 at the same concrete run: the reported
`overfit_risk` is 1 and matches the `max(0, ...)` formula. -/
theorem overfit_risk_formula_witness :
    (0 : ℝ) ≤ 1
    ∧ (1 : ℝ) = max 0 (1 - (⟨⟨0, 0, 0, 0, 3⟩, [3, 4, 5]⟩ : OosResult).report.sharpe /
        (|npMedian (([⟨(0, 2), (3, 3), none, -1000000000⟩,
            ⟨(1, 3), (4, 4), none, -1000000000⟩,
            ⟨(2, 4), (5, 5), none, -1000000000⟩] : List Segment).map
              Segment.best_is_sharpe)| + 1 / 1000000000)) := by
  obtain ⟨v, hv, heq, hnn, _⟩ := overfit_risk_formula
    [((0 : ℕ), (1 : ℚ)), (1, 1), (2, 1), (3, 1), (4, 1), (5, 1)] "sma_cross"
    [("fast", [])] 3 1 (by decide) (by decide) _ ⟨⟨0, 0, 0, 0, 3⟩, [3, 4, 5]⟩
    wfFlat6Run rfl
  have hv1 : some (1 : ℝ) = some v := hv
  obtain rfl : v = 1 := (Option.some.inj hv1).symm
  exact ⟨hnn, heq⟩

/-- Witness for C10: the first out-of-sample return of a concrete
1-row window is 0, and the aggregated `oos` report of the concrete
`outsample_days = 1` run has `total_return = 0` and `sharpe = 0`. -/
theorem oos_restart_flat_witness :
    ([(0 : ℚ)]).headD 0 = 0
    ∧ (⟨0, 0, 0, 0, 3⟩ : BacktestReport).total_return = 0
    ∧ (⟨0, 0, 0, 0, 3⟩ : BacktestReport).sharpe = 0 := by
  have hoe : oosEval [((3 : ℕ), (1 : ℚ))] "sma_cross" none = .ok ([0], [3]) := by
    simp +decide [oosEval, create_strategy, SmaCross.generate_signals, signalsAux,
      smaSignalAt, rollingMean, rollingWindow, listMean, mergeSignals, shift1,
      pctChange, pctAux, List.lookup]
  have h2 := oos_restart_flat.2
    [((0 : ℕ), (1 : ℚ)), (1, 1), (2, 1), (3, 1), (4, 1), (5, 1)] "sma_cross"
    [("fast", [])] 3
    ⟨[⟨(0, 2), (3, 3), none, -1000000000⟩, ⟨(1, 3), (4, 4), none, -1000000000⟩,
      ⟨(2, 4), (5, 5), none, -1000000000⟩],
     some ⟨⟨0, 0, 0, 0, 3⟩, [3, 4, 5]⟩, some 1⟩
    ⟨⟨0, 0, 0, 0, 3⟩, [3, 4, 5]⟩ wfFlat6Run rfl
  exact ⟨oos_restart_flat.1 [((3 : ℕ), (1 : ℚ))] "sma_cross" none ([0], [3]) hoe,
    h2.1, h2.2⟩

/-! ### C3: behaviour on an empty parameter space -/

lemma grid_empty_space : _grid [] = [[]] := rfl

lemma create_strategy_defaults : create_strategy "sma_cross" [] = .ok ⟨10, 30⟩ := by
  simp [create_strategy, List.lookup]

lemma inlineSharpe_empty_ok (is_df : DF) :
    ∃ s, inlineSharpe is_df "sma_cross" [] = .ok s := by
  rw [inlineSharpe, create_strategy_defaults]
  simp only [ok_bind]
  exact ⟨_, rfl⟩

lemma oosEval_default_ok (oos_df : DF) (bp : Option Params) (hbp : bp.getD [] = []) :
    ∃ res, oosEval oos_df "sma_cross" bp = .ok res := by
  rw [oosEval, hbp, create_strategy_defaults]
  simp only [ok_bind]
  exact ⟨_, rfl⟩

open Classical in
lemma gridSearch_empty_space (is_df : DF) :
    ∃ bs bp, gridSearch is_df "sma_cross" [[]] (-(1000000000 : ℝ)) none = .ok (bs, bp)
    ∧ (bp = some [] ∨ (bp = none ∧ bs = -1000000000)) := by
  obtain ⟨s, hs⟩ := inlineSharpe_empty_ok is_df
  rw [gridSearch, hs]
  simp only [ok_bind]
  by_cases h : s > -(1000000000 : ℝ)
  · rw [if_pos h]
    exact ⟨s, some [], rfl, Or.inl rfl⟩
  · rw [if_neg h]
    exact ⟨-(1000000000 : ℝ), none, rfl, Or.inr ⟨rfl, rfl⟩⟩

lemma walkLoop_empty_space (df : DF) (ins outs : ℕ) :
    ∀ (fuel i : ℕ), ∃ segs rets tss,
      walkLoop df "sma_cross" [[]] ins outs fuel i = .ok (segs, rets, tss)
      ∧ ∀ seg ∈ segs, seg.best_params = some [] ∨
          (seg.best_params = none ∧ seg.best_is_sharpe = -1000000000) := by
  intro fuel
  induction fuel with
  | zero =>
    intro i
    exact ⟨[], [], [], rfl, by simp⟩
  | succ fuel ih =>
    intro i
    by_cases hg : df.length < i + ins + outs
    · refine ⟨[], [], [], ?_, by simp⟩
      rw [walkLoop, if_pos hg]
    · obtain ⟨bs, bp, hgs, hbp⟩ := gridSearch_empty_space ((df.drop i).take ins)
      have hbp' : bp.getD [] = [] := by
        rcases hbp with h | ⟨h, _⟩ <;> rw [h] <;> rfl
      obtain ⟨res, hoe⟩ := oosEval_default_ok ((df.drop (i + ins)).take outs) bp hbp'
      obtain ⟨oret, ots⟩ := res
      obtain ⟨segs', rets', tss', hwl, hsegs'⟩ := ih (i + outs)
      have heq : walkLoop df "sma_cross" [[]] ins outs (fuel + 1) i =
          .ok (⟨(tsFirst ((df.drop i).take ins), tsLast ((df.drop i).take ins)),
                (tsFirst ((df.drop (i + ins)).take outs),
                 tsLast ((df.drop (i + ins)).take outs)), bp, bs⟩ :: segs',
               oret ++ rets', ots ++ tss') := by
        rw [walkLoop, if_neg hg]
        dsimp only
        rw [hgs]
        simp only [ok_bind]
        rw [hoe]
        simp only [ok_bind]
        rw [hwl]
        simp only [ok_bind]
      refine ⟨_, _, _, heq, ?_⟩
      intro seg hseg
      rcases List.mem_cons.mp hseg with rfl | h
      · exact hbp
      · exact hsegs' seg h

/-- Amended C3: with an empty `param_space`, `itertools.product` of no
factors yields exactly one candidate — the empty parameter dict — so the
run on the registered `sma_cross` strategy always succeeds: each window
records `best_params = {}` (when its in-sample Sharpe beats the
`-1e9` sentinel, which holds for any representable window) and the
out-of-sample re-run proceeds on `best_params or {}`, i.e. default
parameters; nothing fails downstream. -/
theorem empty_param_space_defaults (df : DF) (ins outs : ℕ) :
    _grid [] = [[]]
    ∧ ∃ r, run_walkforward df "sma_cross" [] ins outs = .ok r
        ∧ ∀ seg ∈ r.segments, seg.best_params = some [] ∨
            (seg.best_params = none ∧ seg.best_is_sharpe = -1000000000) := by
  refine ⟨rfl, ?_⟩
  obtain ⟨segs, rets, tss, hwl, hsegs⟩ :=
    walkLoop_empty_space (sortBy rowLe df) ins outs ((sortBy rowLe df).length + 1) 0
  rw [run_walkforward, grid_empty_space]
  rw [hwl]
  simp only [ok_bind]
  by_cases hz : rets.length = 0
  · rw [if_pos hz]
    exact ⟨_, rfl, hsegs⟩
  · rw [if_neg hz]
    exact ⟨_, rfl, hsegs⟩

/-- Counterexample to C3 as stated: on a concrete 3-row series with an
empty `param_space`, the runner selects `best_params = {}` (the empty
dict, not `None`) in both windows, and the whole run succeeds — the
out-of-sample re-run does not fail downstream. -/
theorem empty_param_space_cex :
    run_walkforward [((0 : ℕ), (1 : ℚ)), (1, 1), (2, 1)] "sma_cross" [] 1 1 =
      .ok ⟨[⟨(0, 0), (1, 1), some [], 0⟩, ⟨(1, 1), (2, 2), some [], 0⟩],
           some ⟨⟨0, 0, 0, 0, 2⟩, [1, 2]⟩, some 1⟩
    ∧ (some ([] : Params)) ≠ none := by
  constructor
  · have hre : ∀ x : ℝ, realLe x x = true := by intro x; simp [realLe]
    have hgt : ((0 : ℝ) > -1000000000) := by norm_num
    simp +decide [run_walkforward, walkLoop, gridSearch, inlineSharpe, oosEval,
      _grid, sortBy, insertSorted, cartesianProduct, strLe, rowLe, create_strategy,
      SmaCross.generate_signals, signalsAux, smaSignalAt, rollingMean, rollingWindow,
      listMean, mergeSignals, shift1, pctChange, pctAux, cumprod, cumAux,
      compute_metrics, sampleVar, cummax, cummaxAux, npMedian, realLe, hre, hgt,
      tsFirst, tsLast, List.lookup]
  · simp

/-! ### C2: grid enumeration order and winner selection -/

/-- Spec-side grid enumeration, written from the spec's words: the
cartesian product over the sorted parameter names, the leftmost (first
sorted) name varying slowest. -/
def specGrid (space : ParamSpace) : List Params :=
  (sortBy strLe (space.map Prod.fst)).foldr
    (fun k acc => ((space.lookup k).getD []).flatMap
      (fun v => acc.map (fun c => (k, v) :: c)))
    [[]]

lemma cartesianProduct_map_zip (space : ParamSpace) :
    ∀ keys : List String,
      (cartesianProduct (keys.map (fun k => (space.lookup k).getD []))).map
          (fun vals => keys.zip vals) =
        keys.foldr
          (fun k acc => ((space.lookup k).getD []).flatMap
            (fun v => acc.map (fun c => (k, v) :: c)))
          [[]] := by
  intro keys
  induction keys with
  | nil => rfl
  | cons k ks ih =>
    rw [List.map_cons, List.foldr_cons, ← ih]
    show (((space.lookup k).getD []).flatMap _).map _ = _
    rw [List.map_flatMap]
    apply List.flatMap_congr ?_
    intro v _
    rw [List.map_map, List.map_map]
    rfl

/-- The implementation's `_grid` enumerates exactly the spec-side
cartesian product over sorted keys. -/
lemma grid_eq_specGrid (space : ParamSpace) : _grid space = specGrid space :=
  cartesianProduct_map_zip space (sortBy strLe (space.map Prod.fst))

open Classical in
/-- The pure selection fold underlying the walk-forward grid loop. -/
noncomputable def specFold : List (Params × ℝ) → ℝ → Option Params → ℝ × Option Params
  | [], b, p => (b, p)
  | (c, s) :: rest, b, p =>
    if s > b then specFold rest s (some c) else specFold rest b p

open Classical in
/-- The first-enumerated candidate whose Sharpe equals `M`. -/
noncomputable def firstAtMax (l : List (Params × ℝ)) (M : ℝ) : Option Params :=
  (l.find? (fun p => decide (p.2 = M))).map Prod.fst

/-- A successful `gridSearch` is the pure `specFold` of the candidates
zipped with their in-sample Sharpes. -/
lemma gridSearch_eq_specFold (is_df : DF) (strategy_name : String) :
    ∀ (combos : List Params) (b0 : ℝ) (p0 : Option Params) (bs : ℝ)
      (bp : Option Params),
    gridSearch is_df strategy_name combos b0 p0 = .ok (bs, bp) →
    ∃ sharpes : List ℝ,
      combos.mapM (inlineSharpe is_df strategy_name) = .ok sharpes
      ∧ (bs, bp) = specFold (combos.zip sharpes) b0 p0 := by
  intro combos
  induction combos with
  | nil =>
    intro b0 p0 bs bp hok
    rw [gridSearch] at hok
    cases hok
    exact ⟨[], rfl, rfl⟩
  | cons c rest ih =>
    intro b0 p0 bs bp hok
    rw [gridSearch] at hok
    cases hs : inlineSharpe is_df strategy_name c with
    | error m => rw [hs] at hok; simp at hok
    | ok s =>
      rw [hs] at hok
      simp only [ok_bind] at hok
      by_cases hgt : s > b0
      · rw [if_pos hgt] at hok
        obtain ⟨sharpes, hmap, hfold⟩ := ih s (some c) bs bp hok
        refine ⟨s :: sharpes, ?_, ?_⟩
        · rw [List.mapM_cons, hs, hmap]; rfl
        · rw [List.zip_cons_cons, specFold, if_pos hgt]
          exact hfold
      · rw [if_neg hgt] at hok
        obtain ⟨sharpes, hmap, hfold⟩ := ih b0 p0 bs bp hok
        refine ⟨s :: sharpes, ?_, ?_⟩
        · rw [List.mapM_cons, hs, hmap]; rfl
        · rw [List.zip_cons_cons, specFold, if_neg hgt]
          exact hfold

lemma le_foldl_max (l : List ℝ) : ∀ b : ℝ, b ≤ l.foldl max b := by
  induction l with
  | nil => intro b; exact le_refl b
  | cons x xs ih =>
    intro b
    rw [List.foldl_cons]
    exact le_trans (le_max_left b x) (ih (max b x))

/-- Every member of the list is at most the running maximum. -/
lemma mem_le_foldl_max (l : List ℝ) : ∀ (b s : ℝ), s ∈ l → s ≤ l.foldl max b := by
  induction l with
  | nil => intro b s h; cases h
  | cons x xs ih =>
    intro b s h
    rw [List.foldl_cons]
    rcases List.mem_cons.mp h with rfl | hx
    · exact le_trans (le_max_right b s) (le_foldl_max xs (max b s))
    · exact ih (max b x) s hx

/-- The running maximum is the seed or an attained member. -/
lemma foldl_max_eq_or_mem (l : List ℝ) :
    ∀ b : ℝ, l.foldl max b = b ∨ l.foldl max b ∈ l := by
  induction l with
  | nil => intro b; exact Or.inl rfl
  | cons x xs ih =>
    intro b
    rw [List.foldl_cons]
    rcases ih (max b x) with h | h
    · rw [h]
      rcases max_choice b x with h' | h'
      · rw [h']; exact Or.inl rfl
      · rw [h']; exact Or.inr (List.mem_cons_self x xs)
    · exact Or.inr (List.mem_cons_of_mem x h)

lemma firstAtMax_cons_of_ne (c : Params) (s M : ℝ) (rest : List (Params × ℝ))
    (h : s ≠ M) : firstAtMax ((c, s) :: rest) M = firstAtMax rest M := by
  rw [firstAtMax, firstAtMax, List.find?_cons_of_neg]
  simp [h]

lemma firstAtMax_cons_self (c : Params) (s M : ℝ) (rest : List (Params × ℝ))
    (h : s = M) : firstAtMax ((c, s) :: rest) M = some c := by
  rw [firstAtMax, List.find?_cons_of_pos]
  · rfl
  · simp [h]

/-- The selection fold is an argmax with strict improvement: it returns
the running maximum, and the first-enumerated candidate attaining it
when that maximum beats the initial value, else the initial candidate. -/
lemma specFold_eq_argmax :
    ∀ (l : List (Params × ℝ)) (b0 : ℝ) (p0 : Option Params),
    specFold l b0 p0 =
      ((l.map Prod.snd).foldl max b0,
       if b0 < (l.map Prod.snd).foldl max b0
       then firstAtMax l ((l.map Prod.snd).foldl max b0)
       else p0) := by
  intro l
  induction l with
  | nil =>
    intro b0 p0
    simp [specFold]
  | cons cs rest ih =>
    intro b0 p0
    obtain ⟨c, s⟩ := cs
    rw [specFold, List.map_cons, List.foldl_cons]
    by_cases hgt : s > b0
    · rw [if_pos hgt, ih s (some c)]
      have hb : max b0 s = s := max_eq_right (le_of_lt hgt)
      rw [hb]
      set M := (rest.map Prod.snd).foldl max s with hM
      have hsM : s ≤ M := le_foldl_max _ s
      have hb0M : b0 < M := lt_of_lt_of_le hgt hsM
      rw [if_pos hb0M]
      by_cases hsM' : s < M
      · rw [if_pos hsM', firstAtMax_cons_of_ne c s M rest (ne_of_lt hsM')]
      · rw [if_neg hsM',
          firstAtMax_cons_self c s M rest (le_antisymm hsM (not_lt.mp hsM'))]
    · rw [if_neg hgt, ih b0 p0]
      have hsb : s ≤ b0 := not_lt.mp hgt
      have hb : max b0 s = b0 := max_eq_left hsb
      rw [hb]
      set M := (rest.map Prod.snd).foldl max b0 with hM
      by_cases hb0M : b0 < M
      · rw [if_pos hb0M, if_pos hb0M,
          firstAtMax_cons_of_ne c s M rest (ne_of_lt (lt_of_le_of_lt hsb hb0M))]
      · rw [if_neg hb0M, if_neg hb0M]

lemma mapM_ok_length (f : Params → Except String ℝ) :
    ∀ (l : List Params) (out : List ℝ), l.mapM f = .ok out → out.length = l.length := by
  intro l
  induction l with
  | nil =>
    intro out hok
    cases hok
    rfl
  | cons c rest ih =>
    intro out hok
    rw [List.mapM_cons] at hok
    cases hc : f c with
    | error m => rw [hc] at hok; simp at hok
    | ok s =>
      rw [hc] at hok
      simp only [ok_bind] at hok
      cases hrest : rest.mapM f with
      | error m => rw [hrest] at hok; simp at hok
      | ok ss =>
        rw [hrest] at hok
        simp only [ok_bind] at hok
        cases hok
        simp [ih ss hrest]

/-- Each output of a successful `mapM` comes from some input. -/
lemma mapM_ok_mem (f : Params → Except String ℝ) :
    ∀ (l : List Params) (out : List ℝ), l.mapM f = .ok out →
      ∀ s ∈ out, ∃ x ∈ l, f x = .ok s := by
  intro l
  induction l with
  | nil =>
    intro out hok s hs
    cases hok
    cases hs
  | cons c rest ih =>
    intro out hok s hs
    rw [List.mapM_cons] at hok
    cases hc : f c with
    | error m => rw [hc] at hok; simp at hok
    | ok s0 =>
      rw [hc] at hok
      simp only [ok_bind] at hok
      cases hrest : rest.mapM f with
      | error m => rw [hrest] at hok; simp at hok
      | ok ss =>
        rw [hrest] at hok
        simp only [ok_bind] at hok
        cases hok
        rcases List.mem_cons.mp hs with rfl | hss
        · exact ⟨c, List.mem_cons_self _ _, hc⟩
        · obtain ⟨x, hx, hfx⟩ := ih ss hrest s hss
          exact ⟨x, List.mem_cons_of_mem _ hx, hfx⟩

/-- A successful inline evaluation returns the Sharpe of a
`compute_metrics` call on an equity curve as long as the window. -/
lemma inlineSharpe_shape (is_df : DF) (strategy_name : String) (params : Params)
    (s : ℝ) (hok : inlineSharpe is_df strategy_name params = .ok s) :
    ∃ equity tr : List ℚ,
      equity.length = is_df.length ∧ s = (compute_metrics equity tr).sharpe := by
  rw [inlineSharpe] at hok
  cases hcs : create_strategy strategy_name params with
  | error m => rw [hcs] at hok; simp at hok
  | ok strat =>
    rw [hcs] at hok
    simp only [ok_bind] at hok
    cases hok
    refine ⟨_, _, ?_, rfl⟩
    simp [cumprod_length, List.length_map, List.length_zipWith, shift1_length,
      mergeSignals_length, pctChange_length]

/-- On windows of at most `10 ^ 15` rows, every successful inline
in-sample Sharpe strictly beats the `-1e9` sentinel: by `sharpe_abs_le`
it is at most `√252·√(10^15)` < `10^9` in absolute value.  (This is why
the sentinel never survives a non-empty grid on any realizable series.) -/
lemma inlineSharpe_gt_sentinel (is_df : DF) (strategy_name : String) (params : Params)
    (s : ℝ) (hok : inlineSharpe is_df strategy_name params = .ok s)
    (hlen : is_df.length ≤ 10 ^ 15) :
    -(1000000000 : ℝ) < s := by
  obtain ⟨E, tr, hE, rfl⟩ := inlineSharpe_shape is_df strategy_name params s hok
  have hb := sharpe_abs_le E tr
  have hEle : (E.length : ℝ) - 1 ≤ (10 ^ 15 : ℝ) := by
    have h1 : (E.length : ℝ) ≤ (10 ^ 15 : ℝ) := by
      rw [hE]
      exact_mod_cast hlen
    linarith
  have hs1 : Real.sqrt ((E.length : ℝ) - 1) ≤ Real.sqrt (10 ^ 15) :=
    Real.sqrt_le_sqrt hEle
  have hs2 : Real.sqrt 252 * Real.sqrt ((E.length : ℝ) - 1) ≤
      Real.sqrt 252 * Real.sqrt (10 ^ 15) :=
    mul_le_mul_of_nonneg_left hs1 (Real.sqrt_nonneg _)
  have hs3 : Real.sqrt 252 * Real.sqrt ((10 : ℝ) ^ 15) =
      Real.sqrt (252 * 10 ^ 15) :=
    (Real.sqrt_mul (by norm_num) _).symm
  have hs4 : Real.sqrt ((252 : ℝ) * 10 ^ 15) < 1000000000 := by
    rw [show (1000000000 : ℝ) = 10 ^ 9 from by norm_num]
    rw [Real.sqrt_lt' (by positivity)]
    norm_num
  have habs : |(compute_metrics E tr).sharpe| < 1000000000 := by
    calc |(compute_metrics E tr).sharpe|
        ≤ Real.sqrt 252 * Real.sqrt ((E.length : ℝ) - 1) := hb
      _ ≤ Real.sqrt 252 * Real.sqrt (10 ^ 15) := hs2
      _ = Real.sqrt (252 * 10 ^ 15) := hs3
      _ < 1000000000 := hs4
  have hd := abs_lt.mp habs
  linarith [hd.1]

/-- Every emitted segment's `(best_is_sharpe, best_params)` pair is the
result of the grid search on that segment's in-sample window. -/
lemma walkLoop_ok_winners (df : DF) (strategy_name : String) (grid : List Params)
    (ins outs : ℕ) :
    ∀ (fuel i : ℕ) (segs : List Segment) (rets : List ℚ) (tss : List ℕ),
    walkLoop df strategy_name grid ins outs fuel i = .ok (segs, rets, tss) →
    ∀ k (hk : k < segs.length),
      gridSearch ((df.drop (i + k * outs)).take ins) strategy_name grid
        (-(1000000000 : ℝ)) none =
      .ok ((segs.get ⟨k, hk⟩).best_is_sharpe, (segs.get ⟨k, hk⟩).best_params) := by
  intro fuel
  induction fuel with
  | zero =>
    intro i segs rets tss hok
    rw [walkLoop] at hok
    cases hok
    intro k hk
    simp at hk
  | succ fuel ih =>
    intro i segs rets tss hok
    rw [walkLoop] at hok
    by_cases hg : df.length < i + ins + outs
    · rw [if_pos hg] at hok
      cases hok
      intro k hk
      simp at hk
    · rw [if_neg hg] at hok
      dsimp only at hok
      cases hgs : gridSearch ((df.drop i).take ins) strategy_name grid
          (-(1000000000 : ℝ)) none with
      | error m => rw [hgs] at hok; simp at hok
      | ok bsp =>
        rw [hgs] at hok
        obtain ⟨bs, bp⟩ := bsp
        simp only [ok_bind] at hok
        cases hoe : oosEval ((df.drop (i + ins)).take outs) strategy_name bp with
        | error m => rw [hoe] at hok; simp at hok
        | ok oo =>
          rw [hoe] at hok
          obtain ⟨oret, ots⟩ := oo
          simp only [ok_bind] at hok
          cases hwl : walkLoop df strategy_name grid ins outs fuel (i + outs) with
          | error m => rw [hwl] at hok; simp at hok
          | ok tri =>
            rw [hwl] at hok
            obtain ⟨segs', rets', tss'⟩ := tri
            simp only [ok_bind] at hok
            cases hok
            intro k hk
            cases k with
            | zero =>
              have h0 : i + 0 * outs = i := by ring
              rw [h0]
              exact hgs
            | succ k =>
              have hk' : k < segs'.length := by
                simp at hk
                omega
              have hr := ih (i + outs) segs' rets' tss' hwl k hk'
              have harith : i + outs + k * outs = i + (k + 1) * outs := by ring
              rw [harith] at hr
              exact hr

/-- Amended C2: candidate parameter sets are enumerated in the cartesian
product order over sorted names (`specGrid`); and whenever the space
enumerates at least one candidate (every parameter given at least one
value) and the series has at most `10 ^ 15` rows — far beyond anything
the program could hold, and enough by `inlineSharpe_gt_sentinel` to put
every candidate's Sharpe strictly above the `-1e9` sentinel — each
window's `best_is_sharpe` is the maximum of the candidates' in-sample
Sharpes, and its winner is selected (`some`) and equals the
first-enumerated combination attaining that maximum (`firstAtMax`:
strict improvement keeps the first-seen combination on ties).  The
claim's universal winner rule fails only when the enumeration is empty
— see `grid_winner_cex`. -/
theorem grid_order_and_winner (df : DF) (strategy_name : String)
    (space : ParamSpace) (ins outs : ℕ) (r : WalkForwardResult)
    (hok : run_walkforward df strategy_name space ins outs = .ok r)
    (hgrid : _grid space ≠ [])
    (hdf : df.length ≤ 10 ^ 15)
    (k : ℕ) (hk : k < r.segments.length) :
    _grid space = specGrid space
    ∧ ∃ sharpes : List ℝ,
        (_grid space).mapM
          (inlineSharpe (((sortBy rowLe df).drop (k * outs)).take ins) strategy_name) =
          .ok sharpes
        ∧ (r.segments.get ⟨k, hk⟩).best_is_sharpe =
            sharpes.foldl max (-(1000000000 : ℝ))
        ∧ (∀ s ∈ sharpes, s ≤ (r.segments.get ⟨k, hk⟩).best_is_sharpe)
        ∧ (r.segments.get ⟨k, hk⟩).best_params =
            firstAtMax ((_grid space).zip sharpes)
              (sharpes.foldl max (-(1000000000 : ℝ)))
        ∧ ∃ winner, (r.segments.get ⟨k, hk⟩).best_params = some winner := by
  refine ⟨grid_eq_specGrid space, ?_⟩
  rw [run_walkforward] at hok
  cases hwl : walkLoop (sortBy rowLe df) strategy_name (_grid space) ins outs
      ((sortBy rowLe df).length + 1) 0 with
  | error m => rw [hwl] at hok; simp at hok
  | ok tri =>
    rw [hwl] at hok
    obtain ⟨segs, rets, tss⟩ := tri
    simp only [ok_bind] at hok
    have hsegs : r.segments = segs := by
      by_cases hz : rets.length = 0
      · rw [if_pos hz] at hok; cases hok; rfl
      · rw [if_neg hz] at hok; cases hok; rfl
    have hk' : k < segs.length := by rw [← hsegs]; exact hk
    have hgs := walkLoop_ok_winners (sortBy rowLe df) strategy_name (_grid space)
      ins outs ((sortBy rowLe df).length + 1) 0 segs rets tss hwl k hk'
    rw [Nat.zero_add] at hgs
    obtain ⟨sharpes, hmap, hfold⟩ :=
      gridSearch_eq_specFold _ strategy_name (_grid space) _ _ _ _ hgs
    have hlensh : sharpes.length = (_grid space).length := mapM_ok_length _ _ _ hmap
    have hsnd : ((_grid space).zip sharpes).map Prod.snd = sharpes :=
      List.map_snd_zip _ _ (le_of_eq hlensh)
    rw [specFold_eq_argmax, hsnd] at hfold
    have hbs : (segs.get ⟨k, hk'⟩).best_is_sharpe =
        sharpes.foldl max (-(1000000000 : ℝ)) := congrArg Prod.fst hfold
    have hwin : (((sortBy rowLe df).drop (k * outs)).take ins).length ≤ 10 ^ 15 := by
      calc (((sortBy rowLe df).drop (k * outs)).take ins).length
          ≤ ((sortBy rowLe df).drop (k * outs)).length := by
            rw [List.length_take]
            exact min_le_right _ _
        _ ≤ (sortBy rowLe df).length := by
            rw [List.length_drop]
            omega
        _ = df.length := sortBy_length _ _
        _ ≤ 10 ^ 15 := hdf
    have hall : ∀ s ∈ sharpes, -(1000000000 : ℝ) < s := by
      intro s hs
      obtain ⟨combo, _, hcok⟩ := mapM_ok_mem _ _ _ hmap s hs
      exact inlineSharpe_gt_sentinel _ strategy_name combo s hcok hwin
    have hlenpos : 0 < sharpes.length := by
      rw [hlensh]
      exact List.length_pos.mpr hgrid
    have hne : sharpes ≠ [] := List.ne_nil_of_length_pos hlenpos
    obtain ⟨s0, rest0, hs0⟩ := List.exists_cons_of_ne_nil hne
    have hs0mem : s0 ∈ sharpes := by rw [hs0]; exact List.mem_cons_self _ _
    have hM : -(1000000000 : ℝ) < sharpes.foldl max (-(1000000000 : ℝ)) :=
      lt_of_lt_of_le (hall s0 hs0mem) (mem_le_foldl_max _ _ _ hs0mem)
    have hbp : (segs.get ⟨k, hk'⟩).best_params =
        firstAtMax ((_grid space).zip sharpes)
          (sharpes.foldl max (-(1000000000 : ℝ))) := by
      have h := congrArg Prod.snd hfold
      rw [if_pos hM] at h
      exact h
    have hget : r.segments.get ⟨k, hk⟩ = segs.get ⟨k, hk'⟩ := by
      cases r
      cases hsegs
      rfl
    rw [hget, hbs]
    refine ⟨sharpes, hmap, rfl, ?_, hbp, ?_⟩
    · intro s hs
      exact mem_le_foldl_max _ _ _ hs
    · rcases foldl_max_eq_or_mem sharpes (-(1000000000 : ℝ)) with h | hMem
      · rw [h] at hM
        exact absurd hM (lt_irrefl _)
      · obtain ⟨j, hj, hsj⟩ := List.mem_iff_getElem.mp hMem
        have hjz : j < ((_grid space).zip sharpes).length := by
          rw [List.length_zip, hlensh]
          omega
        rcases hfa : firstAtMax ((_grid space).zip sharpes)
            (sharpes.foldl max (-(1000000000 : ℝ))) with _ | c
        · exfalso
          rw [firstAtMax] at hfa
          have hnone := Option.map_eq_none'.mp hfa
          have hbad := List.find?_eq_none.mp hnone _ (List.getElem_mem hjz)
          rw [List.getElem_zip] at hbad
          simp [hsj] at hbad
        · exact ⟨c, by rw [hbp, hfa]⟩

/-- Witness for the amended C2 at a concrete input: candidates
`fast ∈ {1, 2}` (a non-empty enumeration on a 2-row series, well under
`10 ^ 15` rows) tie at Sharpe 0 on a 1-row in-sample window and the
first-enumerated combination `{fast: 1}` wins. -/
theorem grid_order_and_winner_witness :
    _grid [("fast", [1, 2])] = specGrid [("fast", [1, 2])]
    ∧ run_walkforward [((0 : ℕ), (1 : ℚ)), (1, 1)] "sma_cross" [("fast", [1, 2])] 1 1 =
        .ok ⟨[⟨(0, 0), (1, 1), some [("fast", 1)], 0⟩],
             some ⟨⟨0, 0, 0, 0, 1⟩, [1]⟩, some 1⟩ := by
  have hok : run_walkforward [((0 : ℕ), (1 : ℚ)), (1, 1)] "sma_cross"
      [("fast", [1, 2])] 1 1 =
      .ok ⟨[⟨(0, 0), (1, 1), some [("fast", 1)], 0⟩],
           some ⟨⟨0, 0, 0, 0, 1⟩, [1]⟩, some 1⟩ := by
    have hre : ∀ x : ℝ, realLe x x = true := by intro x; simp [realLe]
    have hgt : ((0 : ℝ) > -1000000000) := by norm_num
    simp +decide [run_walkforward, walkLoop, gridSearch, inlineSharpe, oosEval,
      _grid, sortBy, insertSorted, cartesianProduct, strLe, rowLe, create_strategy,
      SmaCross.generate_signals, signalsAux, smaSignalAt, rollingMean, rollingWindow,
      listMean, mergeSignals, shift1, pctChange, pctAux, cumprod, cumAux,
      compute_metrics, sampleVar, cummax, cummaxAux, npMedian, realLe, hre, hgt,
      tsFirst, tsLast, List.lookup]
  obtain ⟨h1, _⟩ := grid_order_and_winner _ "sma_cross" _ 1 1 _ hok
    (by decide) (by decide) 0 (by decide)
  exact ⟨h1, hok⟩

/-! ### C2 counterexample: a non-empty space can enumerate no candidate

`itertools.product` over an empty value list yields nothing, so for a
non-empty `param_space` such as `{"fast": []}` the grid loop never runs:
`best_params` stays `None` and `best_is_sharpe` stays `-1e9` in every
window, and there is no "combination with the strictly greatest
in-sample Sharpe" to select.  The run still succeeds, because the
out-of-sample re-run falls back to `best_params or {}`. -/

/-- Counterexample to C2 as stated: `{"fast": []}` is a non-empty
parameter space whose enumeration `_grid` is empty, and on a concrete
3-row flat series the walk-forward run succeeds with two windows that
both record `best_params = None` (not any parameter combination) and
`best_is_sharpe = -1e9` (the untouched sentinel). -/
theorem grid_winner_cex :
    ([("fast", ([] : List ℤ))] : ParamSpace) ≠ []
    ∧ _grid [("fast", ([] : List ℤ))] = []
    ∧ run_walkforward [((0 : ℕ), (1 : ℚ)), (1, 1), (2, 1)] "sma_cross"
        [("fast", ([] : List ℤ))] 1 1 =
      .ok ⟨[⟨(0, 0), (1, 1), none, -1000000000⟩, ⟨(1, 1), (2, 2), none, -1000000000⟩],
           some ⟨⟨0, 0, 0, 0, 2⟩, [1, 2]⟩, some 1⟩ := by
  refine ⟨by simp, rfl, ?_⟩
  have hre : ∀ x : ℝ, realLe x x = true := by intro x; simp [realLe]
  simp +decide [run_walkforward, walkLoop, gridSearch, oosEval,
    _grid, sortBy, insertSorted, cartesianProduct, strLe, rowLe, create_strategy,
    SmaCross.generate_signals, signalsAux, smaSignalAt, rollingMean, rollingWindow,
    listMean, mergeSignals, shift1, pctChange, pctAux, cumprod, cumAux,
    compute_metrics, sampleVar, cummax, cummaxAux, npMedian, realLe, hre,
    tsFirst, tsLast, List.lookup]

end ForecastingStudio
